import Mathlib

/-!
Shallow embedding of `poc-07.py`, a proof-of-concept bidirectional
message synchronizer.  The Python classes `Message`, `Storage`,
`StateDriver`, `StateController` and `Engine` are translated into pure
Lean functions; the in-place list mutations of the source become
explicit state passing (each function returns the lists it mutates).
-/

set_option autoImplicit false

/-- The `flags` dictionary of a `Message`: exactly the two keys
`read` and `important` (source line 17). -/
structure Flags where
  read : Bool
  important : Bool
  deriving DecidableEq

/-- The `Message` class (source lines 11-51): a `uid` (Python allows
`None`, hence `Option Nat`), a `body` (default `None`) and the flags
dictionary. -/
structure Message where
  uid : Option Nat
  body : Option String
  flags : Flags
  deriving DecidableEq

/-- `Message.__init__` (source lines 14-17): the `flags` parameter is
accepted but never stored; the flags are always initialised to
`{'read': False, 'important': False}`. -/
def Message.init (uid : Option Nat) (body : Option String) (flags : Option Flags) : Message :=
  { uid := uid, body := body, flags := { read := false, important := false } }

/-- `Message.__eq__` (source lines 22-23) is `self.uid == other`.  When
`other` is a `Message`, Python resolves this by reflection: `self.uid`
(an `int` or `None`) does not know how to compare with a `Message`, so
Python retries `other.__eq__(self.uid)`, which evaluates
`other.uid == self.uid`.  Between two messages the comparison is
therefore equality of the optional uids, with `None == None` true. -/
def Message.eq (self other : Message) : Bool :=
  decide (self.uid = other.uid)

/-- `Message.identical` (source lines 31-39): uid, body and flags must
all match. -/
def Message.identical (self mess : Message) : Bool :=
  if mess.uid ≠ self.uid then false
  else if mess.body ≠ self.body then false
  else if mess.flags ≠ self.flags then false
  else true

/-- Python `m in msgs` on a list of `Message`: CPython compares each
list element `x` with `m` via `x == m`, which by `Message.__eq__`
(see `Message.eq`) is uid equality. -/
def uidMem (m : Message) (msgs : List Message) : Bool :=
  msgs.any (fun x => decide (x.uid = m.uid))

/-- The overwrite loop of `Storage.update` (source lines 86-91): find
the first message with the matching uid and assign its `body` and
`flags` from the new message, leaving the rest of the list intact. -/
def overwriteFirst : List Message → Message → List Message
  | [], _ => []
  | m :: rest, newM =>
    if m.uid = newM.uid then { uid := m.uid, body := newM.body, flags := newM.flags } :: rest
    else m :: overwriteFirst rest newM

/-- `Storage.update` (source lines 67-93): if no message with the
incoming uid is present, append the new message; otherwise overwrite
the body and flags of the first uid match in place.  The source's own
FIXME (line 80) notes that deletions are not handled. -/
def Storage.update (msgs : List Message) (newM : Message) : List Message :=
  if uidMem newM msgs = false then msgs ++ [newM]
  else overwriteFirst msgs newM

/-- Folding `Storage.update` over a list of incoming messages, the
driver-side (or state-side) effect of `StateController.update`. -/
def applyAll : List Message → List Message → List Message
  | msgs, [] => msgs
  | msgs, m :: rest => applyAll (Storage.update msgs m) rest

/-- `StateController.update` (source lines 132-140): for each incoming
message, update our driver, then update their state.  Both updates are
the in-memory `Storage.update`; the function returns the two mutated
lists `(driver, theirState)`. -/
def StateController.update : List Message → List Message → List Message → List Message × List Message
  | drv, their, [] => (drv, their)
  | drv, their, m :: rest =>
    StateController.update (Storage.update drv m) (Storage.update their m) rest

/-- Modelled from the spec: `StateController.update` with the driver's
`update` generalised to the spec's fallible `ReplicaStore.apply`
(spec section 4.1, `Result<AppliedSet, StoreError>`).  The concrete
failing backends are external collaborators absent from the source
(`Driver` is a fake in-memory store).  The control flow is the
source's loop (lines 135-140): per message, apply to the driver, then
record into their state; an exception aborts the loop and is re-raised,
leaving the lists as mutated so far. -/
def StateController.updateFallible (applyD : List Message → Message → Except Unit (List Message)) :
    List Message → List Message → List Message → Except Unit Unit × List Message × List Message
  | drv, their, [] => (Except.ok (), drv, their)
  | drv, their, m :: rest =>
    match applyD drv m with
    | Except.error e => (Except.error e, drv, their)
    | Except.ok drv2 => StateController.updateFallible applyD drv2 (Storage.update their m) rest

/-- Modelled from the spec: a `ReplicaStore.apply` whose backend raises
a `StoreError` when asked to apply the record with identity 2, and
otherwise behaves like the in-memory `Storage.update`. -/
def failOn2 (msgs : List Message) (m : Message) : Except Unit (List Message) :=
  if m.uid = some 2 then Except.error ()
  else Except.ok (Storage.update msgs m)

/-- The first loop of `StateController.getChanges` (source lines
154-156): append to our state every message of their state whose uid is
not already present, checking membership against the growing list. -/
def mergeInto (st : List Message) : List Message → List Message
  | [] => st
  | m :: rest =>
    if uidMem m st then mergeInto st rest
    else mergeInto (st ++ [m]) rest

/-- The inner scan of the second loop of `getChanges` (source lines
163-167): walk the state messages; at a uid match that is not identical,
stop with success (the message is emitted and the loop breaks); at a uid
match that is identical, keep scanning. -/
def scanState (m : Message) : List Message → Bool
  | [] => false
  | sm :: rest =>
    if sm.uid = m.uid then
      if Message.identical m sm then scanState m rest else true
    else scanState m rest

/-- The second loop of `getChanges` (source lines 158-167): a driver
message absent (by uid) from the state messages is emitted; one present
is emitted when some uid-matching state message is not identical. -/
def changesPass (sms : List Message) : List Message → List Message
  | [] => []
  | m :: rest =>
    if uidMem m sms = false then m :: changesPass sms rest
    else if scanState m sms then m :: changesPass sms rest
    else changesPass sms rest

/-- The third loop of `getChanges` (source lines 169-172): for each
state message absent (by uid) from the driver messages, the source
appends the variable `message` — the leftover binding of the previous
loops (the last driver message, or, when the driver list is empty, the
last message of their state) — not `stateMessage`.  When neither
previous loop ran, `message` is unbound and Python raises `NameError`,
modelled as `Except.error`. -/
def deletionPass (drv : List Message) (leaked : Option Message) : List Message → Except Unit (List Message)
  | [] => Except.ok []
  | sm :: rest =>
    if uidMem sm drv then deletionPass drv leaked rest
    else
      match leaked with
      | some m => (deletionPass drv leaked rest).map (fun dels => m :: dels)
      | none => Except.error ()

/-- `StateController.getChanges` (source lines 145-174).  Arguments are
the three lists the controller reads: our driver's messages, our
state's messages and their state's messages.  Returns the computed
change list (or the raised error) together with the new contents of our
state — `stateMessages` is `self.state.search()`, the state's own list,
so the appends of the first loop mutate our state. -/
def StateController.getChanges (drv st their : List Message) :
    Except Unit (List Message) × List Message :=
  let stateMessages := mergeInto st their
  let changed := changesPass stateMessages drv
  let leaked := match drv.getLast? with
    | some m => some m
    | none => their.getLast?
  ((deletionPass drv leaked stateMessages).map (fun dels => changed ++ dels), stateMessages)

/-- The four lists the engine owns: the two drivers handed to
`Engine.__init__` and the two fresh `StateDriver` stores. -/
structure EngineState where
  leftDriver : List Message
  rightDriver : List Message
  leftState : List Message
  rightState : List Message
  deriving DecidableEq

/-- `Engine.__init__` (source lines 179-185): both state drivers start
empty; the left controller owns the left driver with state `leftState`
and their state `rightState`, and symmetrically for the right. -/
def Engine.init (left right : List Message) : EngineState :=
  { leftDriver := left, rightDriver := right, leftState := [], rightState := [] }

/-- `self.left.getChanges()` inside `Engine.run`: reads the left driver,
the left state and (as their state) the right state; the returned state
list replaces the left state. -/
def Engine.computeLeft (s : EngineState) : Except Unit (List Message) × EngineState :=
  ((StateController.getChanges s.leftDriver s.leftState s.rightState).1,
   { s with leftState := (StateController.getChanges s.leftDriver s.leftState s.rightState).2 })

/-- `self.right.getChanges()` inside `Engine.run`: reads the right
driver, the right state and (as their state) the left state. -/
def Engine.computeRight (s : EngineState) : Except Unit (List Message) × EngineState :=
  ((StateController.getChanges s.rightDriver s.rightState s.leftState).1,
   { s with rightState := (StateController.getChanges s.rightDriver s.rightState s.leftState).2 })

/-- `self.left.update(rightMessages)` inside `Engine.run`: the left
controller updates its driver and their state, which is the right
state. -/
def Engine.applyLeft (s : EngineState) (incoming : List Message) : EngineState :=
  { s with
    leftDriver := (StateController.update s.leftDriver s.rightState incoming).1,
    rightState := (StateController.update s.leftDriver s.rightState incoming).2 }

/-- `self.right.update(leftMessages)` inside `Engine.run`: the right
controller updates its driver and their state, which is the left
state. -/
def Engine.applyRight (s : EngineState) (incoming : List Message) : EngineState :=
  { s with
    rightDriver := (StateController.update s.rightDriver s.leftState incoming).1,
    leftState := (StateController.update s.rightDriver s.leftState incoming).2 }

/-- `Engine.run` (source lines 195-204): compute the left changes, then
the right changes, then apply the right changes to the left side and the
left changes to the right side.  A raised exception propagates. -/
def Engine.run (s : EngineState) : Except Unit EngineState :=
  match Engine.computeLeft s with
  | (Except.error e, _) => Except.error e
  | (Except.ok dl, s1) =>
    match Engine.computeRight s1 with
    | (Except.error e, _) => Except.error e
    | (Except.ok dr, s2) => Except.ok (Engine.applyRight (Engine.applyLeft s2 dr) dl)

/-- Pairwise-distinct uids, the "duplicate identities are a caller
error" invariant of the spec's RecordSet (spec section 3). -/
def nodupUid : List Message → Bool
  | [] => true
  | m :: rest => !uidMem m rest && nodupUid rest

/-- Sample message with identity 1 used in witnesses and
counterexamples. -/
def msgA : Message := { uid := some 1, body := some ("a"), flags := { read := false, important := false } }

/-- Sample message with identity 2. -/
def msgB : Message := { uid := some 2, body := some ("b"), flags := { read := false, important := false } }

/-- Sample message sharing identity 1 with `msgA` but with a different
body. -/
def msgA2 : Message := { uid := some 1, body := some ("b"), flags := { read := false, important := false } }

/-- Sample message with a null identity. -/
def msgNullX : Message := { uid := none, body := some ("x"), flags := { read := false, important := false } }

/-- Second sample message with a null identity and a different body. -/
def msgNullY : Message := { uid := none, body := some ("y"), flags := { read := false, important := false } }

/-- The demo's left store (source lines 211-225, modulo the commented
read flag). -/
def leftDemo : List Message :=
  [{ uid := some 1, body := some ("1 body"), flags := { read := false, important := false } },
   { uid := some 2, body := some ("2 body"), flags := { read := false, important := false } }]

/-- The demo's right store (source lines 211-226). -/
def rightDemo : List Message :=
  [{ uid := some 1, body := some ("1 body"), flags := { read := false, important := false } },
   { uid := some 2, body := some ("2 body"), flags := { read := false, important := false } },
   { uid := some 3, body := some ("3 body"), flags := { read := false, important := false } }]

/-! ### Helper lemmas -/

theorem uidMem_nil (m : Message) : uidMem m [] = false := rfl

theorem uidMem_cons (m x : Message) (xs : List Message) :
    uidMem m (x :: xs) = (decide (x.uid = m.uid) || uidMem m xs) := rfl

theorem uidMem_append (m : Message) (xs ys : List Message) :
    uidMem m (xs ++ ys) = (uidMem m xs || uidMem m ys) := by
  simp [uidMem]

theorem uidMem_true_iff (m : Message) (xs : List Message) :
    uidMem m xs = true ↔ ∃ x ∈ xs, x.uid = m.uid := by
  simp [uidMem]

theorem uidMem_false_iff (m : Message) (xs : List Message) :
    uidMem m xs = false ↔ ∀ x ∈ xs, x.uid ≠ m.uid := by
  simp [uidMem]

theorem changesPass_nil_state (drv : List Message) : changesPass [] drv = drv := by
  induction drv with
  | nil => rfl
  | cons m rest ih => simp [changesPass, uidMem_nil, ih]

theorem getChanges_empty_states (drv : List Message) :
    StateController.getChanges drv [] [] = (Except.ok drv, []) := by
  simp [StateController.getChanges, mergeInto, changesPass_nil_state, deletionPass, Except.map]

theorem message_identical_self (m : Message) : m.identical m = true := by
  simp [Message.identical]

theorem uidMem_mergeInto_mono (their : List Message) :
    ∀ st m, uidMem m st = true → uidMem m (mergeInto st their) = true := by
  induction their with
  | nil => intro st m h; simpa [mergeInto] using h
  | cons t rest ih =>
    intro st m h
    simp only [mergeInto]
    by_cases ht : uidMem t st = true
    · simp [ht]; exact ih st m h
    · simp [ht]
      exact ih (st ++ [t]) m (by simp [uidMem_append, h])

theorem uidMem_mergeInto_their (their : List Message) :
    ∀ st m, m ∈ their → uidMem m (mergeInto st their) = true := by
  induction their with
  | nil => intro st m h; cases h
  | cons t rest ih =>
    intro st m h
    simp only [mergeInto]
    rcases List.mem_cons.mp h with rfl | hm
    · by_cases ht : uidMem m st = true
      · simp [ht]; exact uidMem_mergeInto_mono rest st m ht
      · simp [ht]
        refine uidMem_mergeInto_mono rest (st ++ [m]) m ?_
        simp [uidMem_append, uidMem_cons]
    · by_cases ht : uidMem t st = true
      · simp [ht]; exact ih st m hm
      · simp [ht]; exact ih (st ++ [t]) m hm

theorem mergeInto_eq_self (st their : List Message) (h : ∀ m ∈ their, uidMem m st = true) :
    mergeInto st their = st := by
  induction their with
  | nil => rfl
  | cons t rest ih =>
    have ht : uidMem t st = true := h t (List.mem_cons_self t rest)
    simp only [mergeInto, ht, if_pos]
    exact ih (fun m hm => h m (List.mem_cons_of_mem t hm))

theorem mergeInto_idem (st their : List Message) :
    mergeInto (mergeInto st their) their = mergeInto st their :=
  mergeInto_eq_self _ _ (fun m hm => uidMem_mergeInto_their their st m hm)

/-! ### Claim theorems -/

/-- C10: the `Message` constructor discards its `flags` argument: for
every uid, body and flags argument the constructed message has flags
exactly `read = false, important = false`, so two constructions
differing only in the flags argument build the same message. -/
theorem message_init_default_flags (uid : Option Nat) (body : Option String) (fl fl2 : Option Flags) :
    (Message.init uid body fl).flags = { read := false, important := false } ∧
    Message.init uid body fl = Message.init uid body fl2 :=
  ⟨rfl, rfl⟩

/-- C8 counterexample: two messages that both have a null identity ARE
identity-equal under the source's `__eq__` (Python resolves
`None == other` by the reflected call `other.uid == None`, which is
true), refuting the claim that a null identity never identity-equals
another null. -/
theorem message_eq_null_null_cex :
    Message.eq msgNullX msgNullY = true ∧
    msgNullX.uid = none ∧ msgNullY.uid = none ∧
    msgNullX.body = some ("x") ∧ msgNullY.body = some ("y") :=
  ⟨rfl, rfl, rfl, rfl, rfl⟩

/-- C8 amended: the identity comparison of two messages holds exactly
when their optional uids are equal — a null identity never equals a
non-null one, but two null identities are identity-equal. -/
theorem message_eq_iff_uid (m1 m2 : Message) :
    Message.eq m1 m2 = true ↔ m1.uid = m2.uid := by
  simp [Message.eq]

/-- C2 counterexample: with store `[msgA]` and both state lists empty,
running `getChanges` twice with no intervening store mutation yields
`[msgA]` the second time as well — a non-empty delta (length 1),
refuting the claimed idempotence. -/
theorem getChanges_twice_not_empty_cex :
    (StateController.getChanges [msgA] (StateController.getChanges [msgA] [] []).2 []).1
        = Except.ok [msgA] ∧
    ([msgA] : List Message).length = 1 :=
  ⟨rfl, rfl⟩

/-- C2 amended: running `getChanges` twice with no intervening store
mutation yields the second time exactly the same result as the first
(the own state reaches a fixed point after the first run), not an empty
delta; the second delta is empty only when the first already was. -/
theorem getChanges_second_run_same (drv st their : List Message) :
    StateController.getChanges drv (StateController.getChanges drv st their).2 their
      = StateController.getChanges drv st their := by
  simp only [StateController.getChanges]
  rw [mergeInto_idem]

/-- C6 counterexample: with an empty own state and `[msgA]` in the
peer state, `getChanges` grows the own state from length 0 to length 1
— the delta computation is not read-only. -/
theorem getChanges_mutates_state_cex :
    (StateController.getChanges [] [] [msgA]).2 = [msgA] ∧
    ([] : List Message).length = 0 ∧
    (StateController.getChanges [] [] [msgA]).2.length = 1 :=
  ⟨rfl, rfl, rfl⟩

/-- C6 amended: `getChanges` reads the driver store and the peer state
without modifying them, but it appends to the own state every peer
record whose identity is missing from it; the own state is left
unchanged exactly when every peer record's identity is already present
in it. -/
theorem getChanges_state_fixed_iff (drv st their : List Message) :
    (StateController.getChanges drv st their).2 = st ↔ ∀ m ∈ their, uidMem m st = true := by
  constructor
  · intro h m hm
    have := uidMem_mergeInto_their their st m hm
    simpa [StateController.getChanges, h] using (h ▸ this)
  · intro h
    simp [StateController.getChanges, mergeInto_eq_self st their h]

/-- C3: evaluating `getChanges` at a store `[msgA]` whose baseline
`[msgA, msgB]` contains the deleted record `msgB` (identity 2): the
emitted deletion entry is `msgA` — the leftover loop variable, carrying
identity 1 — not a record with the deleted identity 2. -/
theorem getChanges_deletion_wrong_identity :
    (StateController.getChanges [msgA] [msgA, msgB] []).1 = Except.ok [msgA] ∧
    List.map Message.uid [msgA] = [some 1] ∧
    (List.map Message.uid [msgA]).contains (some 2) = false ∧
    msgB.uid = some 2 :=
  ⟨rfl, rfl, rfl, rfl⟩

/-- C9 counterexample: a current snapshot holding two distinct records
with the same identity 1 (`msgA` and `msgA2`) does not make the delta
computation fail: `getChanges` succeeds and returns both duplicates as
separate entries. -/
theorem getChanges_duplicates_cex :
    (StateController.getChanges [msgA, msgA2] [] []).1 = Except.ok [msgA, msgA2] ∧
    msgA.uid = msgA2.uid ∧
    msgA.body = some ("a") ∧ msgA2.body = some ("b") :=
  ⟨rfl, rfl, rfl, rfl⟩

/-- C9 amended: `getChanges` performs no duplicate-identity check: on a
current snapshot containing two distinct records with the same
identity (and empty state lists) it succeeds, emitting every snapshot
record — each duplicate as its own entry, neither coalesced nor
rejected. -/
theorem getChanges_duplicates_not_failfast (m m2 : Message) (rest : List Message)
    (h1 : m.uid = m2.uid) (h2 : m ≠ m2) :
    (StateController.getChanges (m :: m2 :: rest) [] []).1 = Except.ok (m :: m2 :: rest) := by
  rw [getChanges_empty_states]

/-- C9 witness: the amended theorem applied to the concrete duplicate
snapshot `[msgA, msgA2]`. -/
theorem getChanges_duplicates_not_failfast_witness :
    msgA.uid = msgA2.uid ∧ msgA ≠ msgA2 ∧
    (StateController.getChanges [msgA, msgA2] [] []).1 = Except.ok [msgA, msgA2] :=
  ⟨rfl, by decide, getChanges_duplicates_not_failfast msgA msgA2 [] rfl (by decide)⟩

theorem overwriteFirst_uid_surviving (msgs : List Message) (newM m : Message) (h : m ∈ msgs) :
    ∃ m2, m2 ∈ overwriteFirst msgs newM ∧ m2.uid = m.uid := by
  induction msgs with
  | nil => cases h
  | cons x xs ih =>
    simp only [overwriteFirst]
    by_cases hx : x.uid = newM.uid
    · rw [if_pos hx]
      rcases List.mem_cons.mp h with hxm | hxs
      · exact ⟨{ uid := x.uid, body := newM.body, flags := newM.flags },
          List.mem_cons_self _ _, by rw [hxm]⟩
      · exact ⟨m, List.mem_cons_of_mem _ hxs, rfl⟩
    · rw [if_neg hx]
      rcases List.mem_cons.mp h with hxm | hxs
      · exact ⟨x, List.mem_cons_self _ _, by rw [hxm]⟩
      · rcases ih hxs with ⟨m2, hm2, hu⟩
        exact ⟨m2, List.mem_cons_of_mem _ hm2, hu⟩

/-- C4: `Storage.update` never deletes: every identity present in the
store before an update is still present after it, whatever the incoming
message is — the code has no tombstone representation and no deletion
path (its own FIXME at line 80 says deletions are not handled), so the
claim's "delete on Tombstone" behaviour does not exist. -/
theorem storage_update_never_deletes (msgs : List Message) (newM m : Message) (h : m ∈ msgs) :
    ∃ m2, m2 ∈ Storage.update msgs newM ∧ m2.uid = m.uid := by
  unfold Storage.update
  by_cases hmem : uidMem newM msgs = false
  · exact ⟨m, by simp [hmem]; left; exact h, rfl⟩
  · simpa [hmem] using overwriteFirst_uid_surviving msgs newM m h

/-- C4 witness: the record `msgA` survives the update of store `[msgA]`
with the incoming message `msgB`. -/
theorem storage_update_never_deletes_witness :
    msgA ∈ [msgA] ∧ ∃ m2, m2 ∈ Storage.update [msgA] msgB ∧ m2.uid = msgA.uid :=
  ⟨List.mem_singleton.mpr rfl,
   storage_update_never_deletes [msgA] msgB msgA (List.mem_singleton.mpr rfl)⟩

/-- C5 counterexample: applying the delta `[msgA, msgB]` through a
backend that fails on identity 2 raises the error, but the peer state
(the baseline record of the exchange) has already grown from length 0
to length 1: a partial subset of the delta is recorded despite the
failure. -/
theorem updateFallible_failure_baseline_cex :
    StateController.updateFallible failOn2 [] [] [msgA, msgB]
        = (Except.error (), [msgA], [msgA]) ∧
    ([] : List Message).length = 0 ∧ ([msgA] : List Message).length = 1 :=
  ⟨rfl, rfl, rfl⟩

/-- C5 amended: when applying an incoming delta fails at some message,
the error is surfaced (re-raised, not retried), but the driver and the
peer state keep the updates of every message preceding the failing one
— the prefix applied before the failure stays recorded, only the
failing message and its successors are excluded. -/
theorem updateFallible_surfaces_error_keeps_applied
    (f : List Message → Message → Except Unit (List Message))
    (drv their d1 t1 : List Message) (done : List Message) (m : Message)
    (rest : List Message) (e : Unit)
    (hdone : StateController.updateFallible f drv their done = (Except.ok (), d1, t1))
    (hm : f d1 m = Except.error e) :
    StateController.updateFallible f drv their (done ++ m :: rest) = (Except.error e, d1, t1) := by
  induction done generalizing drv their with
  | nil =>
    simp only [StateController.updateFallible] at hdone
    injection hdone with hA hB
    injection hB with h1 h2
    subst h1; subst h2
    simp [StateController.updateFallible, hm]
  | cons p ps ih =>
    simp only [StateController.updateFallible] at hdone ⊢
    cases hp : f drv p with
    | error e2 => rw [hp] at hdone; cases hdone
    | ok drv2 =>
      rw [hp] at hdone
      exact ih drv2 (Storage.update their p) hdone

/-- C5 witness: the amended theorem at the concrete backend `failOn2`,
delta `[msgA, msgB]` and empty initial lists: the prefix `[msgA]` stays
recorded in driver and peer state while the error is surfaced. -/
theorem updateFallible_surfaces_error_keeps_applied_witness :
    StateController.updateFallible failOn2 [] [] [msgA] = (Except.ok (), [msgA], [msgA]) ∧
    failOn2 [msgA] msgB = Except.error () ∧
    StateController.updateFallible failOn2 [] [] ([msgA] ++ msgB :: [])
        = (Except.error (), [msgA], [msgA]) :=
  ⟨rfl, rfl,
   updateFallible_surfaces_error_keeps_applied failOn2 [] [] [msgA] [msgA] [msgA] msgB [] () rfl rfl⟩

/-- C7 counterexample: starting a cycle from drivers `[] / []`, left
state `[]` and right state `[msgA]`, the left `getChanges` call inside
`Engine.run` grows the left state to `[msgA]` before the right delta is
computed: the right delta inside the run is `Except.ok [msgA]`, while
`getChanges` evaluated against the cycle-start baselines raises an
error — so the right delta is computed against a mid-cycle mutated
baseline, not one reflecting the settled prior cycle. -/
theorem engine_run_midcycle_baseline_cex :
    (Engine.computeLeft { leftDriver := [], rightDriver := [], leftState := [], rightState := [msgA] }).2.leftState
        = [msgA] ∧
    ({ leftDriver := [], rightDriver := [], leftState := [], rightState := [msgA] } : EngineState).leftState
        = [] ∧
    (Engine.computeRight
        (Engine.computeLeft { leftDriver := [], rightDriver := [], leftState := [], rightState := [msgA] }).2).1
        = Except.ok [msgA] ∧
    (Engine.computeRight { leftDriver := [], rightDriver := [], leftState := [], rightState := [msgA] }).1
        = Except.error () :=
  ⟨rfl, rfl, rfl, rfl⟩

/-- C7 amended: `Engine.run` does invoke `getChanges` on both sides
before any `update` call, and the compute phase never touches either
driver store (both deltas are computed against the cycle-start stores,
never a mid-cycle mutated store); the run is exactly the two computes
followed by the two applies.  However the baselines are not from a
fully settled prior cycle: the left `getChanges` mutates the left
state, which the right delta computation then reads (see the
counterexample). -/
theorem engine_run_factors (s s1 s2 : EngineState) (dl dr : List Message)
    (h1 : Engine.computeLeft s = (Except.ok dl, s1))
    (h2 : Engine.computeRight s1 = (Except.ok dr, s2)) :
    s1.leftDriver = s.leftDriver ∧ s1.rightDriver = s.rightDriver ∧
    s2.leftDriver = s.leftDriver ∧ s2.rightDriver = s.rightDriver ∧
    Engine.run s = Except.ok (Engine.applyRight (Engine.applyLeft s2 dr) dl) := by
  have hs1 : s1 = { s with leftState := (StateController.getChanges s.leftDriver s.leftState s.rightState).2 } := by
    have := congrArg Prod.snd h1
    simpa [Engine.computeLeft] using this.symm
  have hs2 : s2 = { s1 with rightState := (StateController.getChanges s1.rightDriver s1.rightState s1.leftState).2 } := by
    have := congrArg Prod.snd h2
    simpa [Engine.computeRight] using this.symm
  refine ⟨by rw [hs1], by rw [hs1], by rw [hs2, hs1], by rw [hs2, hs1], ?_⟩
  simp [Engine.run, h1, h2]

/-- C7 witness: the amended theorem at the concrete engine state built
from two identical one-message stores, where both computes succeed. -/
theorem engine_run_factors_witness :
    Engine.computeLeft (Engine.init [msgA] [msgA]) = (Except.ok [msgA], Engine.init [msgA] [msgA]) ∧
    Engine.computeRight (Engine.init [msgA] [msgA]) = (Except.ok [msgA], Engine.init [msgA] [msgA]) ∧
    Engine.run (Engine.init [msgA] [msgA])
        = Except.ok (Engine.applyRight (Engine.applyLeft (Engine.init [msgA] [msgA]) [msgA]) [msgA]) :=
  ⟨rfl, rfl,
   (engine_run_factors (Engine.init [msgA] [msgA]) (Engine.init [msgA] [msgA])
      (Engine.init [msgA] [msgA]) [msgA] [msgA] rfl rfl).2.2.2.2⟩

theorem stateController_update_eq (inc : List Message) :
    ∀ drv their, StateController.update drv their inc = (applyAll drv inc, applyAll their inc) := by
  induction inc with
  | nil => intro drv their; rfl
  | cons m rest ih =>
    intro drv their
    simp only [StateController.update, applyAll]
    exact ih (Storage.update drv m) (Storage.update their m)

theorem engine_run_init_eq (L R : List Message) :
    Engine.run (Engine.init L R)
      = Except.ok { leftDriver := applyAll L R, rightDriver := applyAll R L,
                    leftState := applyAll [] L, rightState := applyAll [] R } := by
  simp [Engine.run, Engine.computeLeft, Engine.computeRight, Engine.applyLeft, Engine.applyRight,
        Engine.init, getChanges_empty_states, stateController_update_eq]

theorem nodupUid_split (x : Message) (xs : List Message) (h : nodupUid (x :: xs) = true) :
    uidMem x xs = false ∧ nodupUid xs = true := by
  simpa [nodupUid, Bool.and_eq_true] using h

theorem nodupUid_uniq (xs : List Message) (h : nodupUid xs = true) :
    ∀ a ∈ xs, ∀ b ∈ xs, a.uid = b.uid → a = b := by
  induction xs with
  | nil => intro a ha; cases ha
  | cons x rest ih =>
    obtain ⟨hx, hrest⟩ := nodupUid_split x rest h
    intro a ha b hb hab
    rcases List.mem_cons.mp ha with ha1 | ha2 <;> rcases List.mem_cons.mp hb with hb1 | hb2
    · rw [ha1, hb1]
    · exfalso
      have hmem : uidMem x rest = true :=
        (uidMem_true_iff x rest).mpr ⟨b, hb2, (ha1 ▸ hab).symm⟩
      rw [hmem] at hx; cases hx
    · exfalso
      have hmem : uidMem x rest = true :=
        (uidMem_true_iff x rest).mpr ⟨a, ha2, hb1 ▸ hab⟩
      rw [hmem] at hx; cases hx
    · exact ih hrest a ha2 b hb2 hab

theorem nodupUid_append_one (L : List Message) (r : Message)
    (hL : nodupUid L = true) (hr : uidMem r L = false) : nodupUid (L ++ [r]) = true := by
  induction L with
  | nil => simp [nodupUid, uidMem_nil]
  | cons x xs ih =>
    obtain ⟨hx, hxs⟩ := nodupUid_split x xs hL
    have hr2 : uidMem r xs = false ∧ x.uid ≠ r.uid := by
      rw [uidMem_cons] at hr
      simp only [Bool.or_eq_false_iff, decide_eq_false_iff_not] at hr
      exact ⟨hr.2, hr.1⟩
    have h1 : uidMem x (xs ++ [r]) = false := by
      rw [uidMem_append, hx]
      simp only [Bool.false_or, uidMem, List.any_cons, List.any_nil, Bool.or_false,
        decide_eq_false_iff_not]
      exact fun hh => hr2.2 hh.symm
    have h2 : nodupUid (xs ++ [r]) = true := ih hxs hr2.1
    show nodupUid (x :: (xs ++ [r])) = true
    simp [nodupUid, h1, h2]

theorem overwriteFirst_eq_self (L : List Message) (r : Message)
    (hid : ∀ l ∈ L, l.uid = r.uid → l = r) : overwriteFirst L r = L := by
  induction L with
  | nil => rfl
  | cons x xs ih =>
    simp only [overwriteFirst]
    by_cases hx : x.uid = r.uid
    · rw [if_pos hx]
      have hxr : x = r := hid x (List.mem_cons_self _ _) hx
      subst hxr
      rfl
    · rw [if_neg hx]
      rw [ih (fun l hl hu => hid l (List.mem_cons_of_mem _ hl) hu)]

theorem storage_update_present_ident (L : List Message) (r : Message)
    (h : uidMem r L = true) (hid : ∀ l ∈ L, l.uid = r.uid → l = r) :
    Storage.update L r = L := by
  rw [Storage.update, if_neg (by simp [h]), overwriteFirst_eq_self L r hid]

theorem storage_update_absent (L : List Message) (r : Message) (h : uidMem r L = false) :
    Storage.update L r = L ++ [r] := by
  simp [Storage.update, h]

theorem applyAll_eq (R : List Message) :
    ∀ L : List Message, nodupUid L = true → nodupUid R = true →
    (∀ l ∈ L, ∀ r ∈ R, l.uid = r.uid → l = r) →
    applyAll L R = L ++ R.filter (fun x => !uidMem x L) := by
  induction R with
  | nil => intro L _ _ _; simp [applyAll]
  | cons r R2 ih =>
    intro L hL hR hLR
    obtain ⟨hr1, hr2⟩ := nodupUid_split r R2 hR
    simp only [applyAll]
    by_cases h : uidMem r L = true
    · have hupd : Storage.update L r = L :=
        storage_update_present_ident L r h (fun l hl hu => hLR l hl r (List.mem_cons_self _ _) hu)
      rw [hupd, ih L hL hr2 (fun l hl x hx hu => hLR l hl x (List.mem_cons_of_mem _ hx) hu)]
      simp [List.filter_cons, h]
    · have h0 : uidMem r L = false := by simpa using h
      rw [storage_update_absent L r h0]
      have hL2 : nodupUid (L ++ [r]) = true := nodupUid_append_one L r hL h0
      have hLR2 : ∀ l ∈ L ++ [r], ∀ x ∈ R2, l.uid = x.uid → l = x := by
        intro l hl x hx hu
        rcases List.mem_append.mp hl with hlL | hlr
        · exact hLR l hlL x (List.mem_cons_of_mem _ hx) hu
        · exfalso
          have hlr2 : l = r := List.mem_singleton.mp hlr
          have hmem : uidMem r R2 = true :=
            (uidMem_true_iff r R2).mpr ⟨x, hx, by rw [← hu, hlr2]⟩
          rw [hmem] at hr1; cases hr1
      rw [ih (L ++ [r]) hL2 hr2 hLR2]
      have hfeq : List.filter (fun x => !uidMem x (L ++ [r])) R2
          = List.filter (fun x => !uidMem x L) R2 := by
        apply List.filter_congr
        intro x hx
        have hxr : x.uid ≠ r.uid := by
          intro hxeq
          have hmem : uidMem r R2 = true := (uidMem_true_iff r R2).mpr ⟨x, hx, hxeq⟩
          rw [hmem] at hr1; cases hr1
        have hsing : uidMem x [r] = false := by
          simp only [uidMem, List.any_cons, List.any_nil, Bool.or_false,
            decide_eq_false_iff_not]
          exact fun hh => hxr hh.symm
        rw [uidMem_append, hsing, Bool.or_false]
      rw [hfeq, List.filter_cons]
      simp [h0, List.append_assoc]

/-- C1: convergence after one engine run.  For stores `L` and `R` whose
identities are pairwise distinct within each store (the spec's
RecordSet caller invariant) and whose overlapping identities carry
fully-identical records (stores with disjoint identities satisfy this
vacuously), one `Engine.run` on a freshly constructed engine succeeds
and leaves the two driver stores identical-equal on every overlapping
identity. -/
theorem engine_run_convergence (L R : List Message)
    (hL : nodupUid L = true) (hR : nodupUid R = true)
    (hLR : ∀ l ∈ L, ∀ r ∈ R, l.uid = r.uid → l = r) :
    ∃ s2, Engine.run (Engine.init L R) = Except.ok s2 ∧
      ∀ l ∈ s2.leftDriver, ∀ r ∈ s2.rightDriver, l.uid = r.uid → l.identical r = true := by
  have hRL : ∀ r ∈ R, ∀ l ∈ L, r.uid = l.uid → r = l :=
    fun r hr l hl h => (hLR l hl r hr h.symm).symm
  refine ⟨_, engine_run_init_eq L R, ?_⟩
  intro l hl r hr huid
  dsimp only at hl hr
  rw [applyAll_eq R L hL hR hLR] at hl
  rw [applyAll_eq L R hR hL hRL] at hr
  have hl2 : l ∈ L ∨ l ∈ R := by
    rcases List.mem_append.mp hl with h1 | h1
    · exact Or.inl h1
    · exact Or.inr (List.mem_filter.mp h1).1
  have hr2 : r ∈ R ∨ r ∈ L := by
    rcases List.mem_append.mp hr with h1 | h1
    · exact Or.inl h1
    · exact Or.inr (List.mem_filter.mp h1).1
  have heq : l = r := by
    rcases hl2 with hlL | hlR <;> rcases hr2 with hrR | hrL
    · exact hLR l hlL r hrR huid
    · exact nodupUid_uniq L hL l hlL r hrL huid
    · exact nodupUid_uniq R hR l hlR r hrR huid
    · exact (hLR r hrL l hlR huid.symm).symm
  rw [heq]
  exact message_identical_self r

/-- C1 witness: the demo stores of the source's main block — identical
records 1 and 2 on both sides, record 3 only on the right — satisfy the
hypotheses, and the run converges. -/
theorem engine_run_convergence_witness :
    nodupUid leftDemo = true ∧ nodupUid rightDemo = true ∧
    (∀ l ∈ leftDemo, ∀ r ∈ rightDemo, l.uid = r.uid → l = r) ∧
    ∃ s2, Engine.run (Engine.init leftDemo rightDemo) = Except.ok s2 ∧
      ∀ l ∈ s2.leftDriver, ∀ r ∈ s2.rightDriver, l.uid = r.uid → l.identical r = true :=
  ⟨by decide, by decide, by decide,
   engine_run_convergence leftDemo rightDemo (by decide) (by decide) (by decide)⟩
